import Mathlib

/-!
Verification of the Quantum-Ride-Pooling assignment-and-routing pipeline.

The definitions below are shallow embeddings of the Python source:
* QUBO/parse_assignments.py : calculate_distance, optimize_route,
  process_vehicle_route (the RouteBuilder),
* QUBO/solve_qubo.py : interpret_solution, validate_solution
  (the AssignmentInterpreter),
* QUBO/qubo_model.py : build_qubo_model (the AssignmentModelBuilder),
* Code/simulate_traffic.py : greedy_assignment, assign_ride
  (the OnlineGreedyAssigner).

Coordinates are embedded as rationals (the source works on exact
half-integer kilometre grids stored in floats; every operation used is
exact on those values).  Python sets of small consecutive natural
numbers iterate in increasing numeric order, so the remaining-point set
of optimize_route is embedded as an increasingly sorted list and the
set re-insertion as an ordered insert.
-/

/-- Manhattan distance between two points, as in calculate_distance. -/
def calculate_distance (p q : ℚ × ℚ) : ℚ :=
  |p.1 - q.1| + |p.2 - q.2|

/-- One entry of the combined points list of optimize_route:
coordinate, type (0 = pickup, 1 = dropoff), rider index. -/
structure PointEntry where
  coord : ℚ × ℚ
  ptype : ℕ
  ridx : ℕ
deriving DecidableEq

instance : Inhabited PointEntry := ⟨⟨(0, 0), 0, 0⟩⟩

/-- The enumerated entries of one list of coordinates, tagged with type
t and consecutive rider indices starting at i.  Mirrors the Python
comprehensions over enumerate(pickups) and enumerate(dropoffs). -/
def entriesFrom (t : ℕ) : ℕ → List (ℚ × ℚ) → List PointEntry
  | _, [] => []
  | i, c :: rest => ⟨c, t, i⟩ :: entriesFrom t (i + 1) rest

/-- The combined points list of optimize_route: all pickups (type 0)
followed by all dropoffs (type 1). -/
def routePoints (pickups dropoffs : List (ℚ × ℚ)) : List PointEntry :=
  entriesFrom 0 0 pickups ++ entriesFrom 1 0 dropoffs

/-- First index at or after position k satisfying the predicate;
mirrors Python next(i for i, e in enumerate(points) if ...). -/
def findIdxFrom (p : PointEntry → Bool) : List PointEntry → ℕ → Option ℕ
  | [], _ => none
  | e :: rest, k => if p e then some k else findIdxFrom p rest (k + 1)

/-- Python min(iterable, key=f) over a set of small naturals iterated
in increasing order: the first listed element attaining the minimal
key.  min keeps the current candidate unless a strictly smaller key is
seen. -/
def argminKey (f : ℕ → ℚ) : List ℕ → Option ℕ
  | [] => none
  | i :: rest =>
    match argminKey f rest with
    | none => some i
    | some j => if f j < f i then some j else some i

/-- The body of the precedence-adjustment branch of optimize_route: if
the chosen point is a pickup, look up the rider's dropoff index; if it
is still remaining, rebuild the remaining set without any dropoff of
that rider and re-add the dropoff index (set add = ordered insert). -/
def adjustRemaining (pts : List PointEntry) (nearest : ℕ) (remaining : List ℕ) :
    List ℕ :=
  if (pts.getD nearest default).ptype = 0 then
    match findIdxFrom
        (fun q => q.ptype == 1 && q.ridx == (pts.getD nearest default).ridx)
        pts 0 with
    | some didx =>
      if didx ∈ remaining then
        List.orderedInsert (· ≤ ·) didx
          (remaining.filter fun i =>
            !((pts.getD i default).ptype == 1 &&
              (pts.getD i default).ridx == (pts.getD nearest default).ridx))
      else remaining
    | none => remaining
  else remaining

/-- The while loop of optimize_route, with a fuel parameter bounding
the number of iterations (each iteration strictly shrinks the
remaining set, so fuel = initial size is enough). -/
def optRouteGo (pts : List PointEntry) : ℕ → ℚ × ℚ → List ℕ → List ℕ
  | 0, _, _ => []
  | fuel + 1, pos, remaining =>
    match argminKey (fun i => calculate_distance pos (pts.getD i default).coord)
        remaining with
    | none => []
    | some nearest =>
      nearest ::
        optRouteGo pts fuel (pts.getD nearest default).coord
          (adjustRemaining pts nearest (remaining.erase nearest))

/-- optimize_route from QUBO/parse_assignments.py: nearest-neighbour
selection starting at the origin over the combined point list, with the
in-loop pickup adjustment branch. -/
def optimize_route (pickups dropoffs : List (ℚ × ℚ)) : List ℕ :=
  if pickups.isEmpty then []
  else
    let pts := routePoints pickups dropoffs
    optRouteGo pts pts.length (0, 0) (List.range pts.length)

/-- AVG_SPEED from parse_assignments.py, in m/s. -/
def AVG_SPEED : ℚ := 10

/-- Kind of a route stop, the type field of the JSON stop record. -/
inductive StopKind where
  | pickup : StopKind
  | dropoff : StopKind
deriving DecidableEq

/-- One stop of a built route, as appended by process_vehicle_route. -/
structure Stop where
  kind : StopKind
  rider_id : ℕ
  x : ℚ
  y : ℚ
  distance_from_previous : ℚ
deriving DecidableEq

/-- Pickup and dropoff coordinates of one rider, the data
process_vehicle_route reads from the trip table. -/
structure RiderData where
  pickup : ℚ × ℚ
  dropoff : ℚ × ℚ
deriving DecidableEq

/-- The per-vehicle route document produced by process_vehicle_route. -/
structure RouteArtifact where
  vehicle_id : ℕ
  route : List Stop
  total_distance : ℚ
  estimated_time : ℚ
  riders : List RiderData
deriving DecidableEq

/-- The route-reconstruction loop of process_vehicle_route: walk the
chosen indices, classify each as pickup (idx < number of pickups) or
dropoff, append a Stop carrying its distance from the previous
position, and accumulate total_distance.  The accumulator carries the
stop list built so far, the running total and the current position. -/
def routeFold (pickups dropoffs : List (ℚ × ℚ)) :
    List ℕ → List Stop × ℚ × (ℚ × ℚ) → List Stop × ℚ × (ℚ × ℚ)
  | [], acc => acc
  | idx :: rest, (stops, total, pos) =>
    let isP := idx < pickups.length
    let rid := if isP then idx else idx - pickups.length
    let pt := if isP then pickups.getD rid (0, 0) else dropoffs.getD rid (0, 0)
    let d := calculate_distance pos pt
    routeFold pickups dropoffs rest
      (stops ++ [⟨if isP then StopKind.pickup else StopKind.dropoff, rid, pt.1, pt.2, d⟩],
       total + d, pt)

/-- process_vehicle_route from QUBO/parse_assignments.py.  An empty
rider list yields the empty artifact; otherwise build the route over
the riders' pickups and dropoffs starting from the origin and derive
estimated_time from the accumulated total distance. -/
def process_vehicle_route (vehicle_id : ℕ) (riders : List RiderData) :
    RouteArtifact :=
  if riders.isEmpty then ⟨vehicle_id, [], 0, 0, []⟩
  else
    let pickups := riders.map (·.pickup)
    let dropoffs := riders.map (·.dropoff)
    let idxs := optimize_route pickups dropoffs
    let res := routeFold pickups dropoffs idxs ([], 0, (0, 0))
    ⟨vehicle_id, res.1, res.2.1, res.2.1 * 1000 / AVG_SPEED, riders⟩

/-- interpret_solution from QUBO/solve_qubo.py, with the textual
variable keys already decoded to (rider, vehicle) pairs: vehicle j gets
every rider i whose variable is set to 1, in sample order. -/
def interpret_solution (sample : List ((ℕ × ℕ) × ℕ)) (vehicles : ℕ) :
    List (List ℕ) :=
  (List.range vehicles).map fun j =>
    (sample.filter fun kv => kv.2 == 1 && kv.1.2 == j).map fun kv => kv.1.1

/-- validate_solution from QUBO/solve_qubo.py: pour every vehicle's
rider list into one set and accept iff the set has exactly riders
elements.  The Python set of the concatenation is embedded as dedup. -/
def validate_solution (assignments : List (List ℕ)) (riders : ℕ) : Bool :=
  assignments.flatten.dedup.length == riders

/-- MAX_CAPACITY from QUBO/qubo_model.py. -/
def MAX_CAPACITY : ℕ := 4

/-- DEFAULT_PENALTY from QUBO/qubo_model.py. -/
def DEFAULT_PENALTY : ℚ := 5000

/-- MAX_WAIT_TIME from QUBO/qubo_model.py, in seconds. -/
def MAX_WAIT_TIME : ℚ := 600

/-- The distance term of build_qubo_model: sum of distance[i][j] *
x[i][j] over all riders and vehicles, as the Python generator sum. -/
def distance_term (R V : ℕ) (dist x : ℕ → ℕ → ℚ) : ℚ :=
  ((List.range R).map fun i =>
    ((List.range V).map fun j => dist i j * x i j).sum).sum

/-- The per-rider assignment constraints of build_qubo_model: for each
rider, the squared deviation of its row sum from one.  The pyqubo
Constraint wrapper evaluates to its wrapped polynomial. -/
def assignment_constraints (R V : ℕ) (x : ℕ → ℕ → ℚ) : ℚ :=
  ((List.range R).map fun i =>
    (((List.range V).map fun j => x i j).sum - 1) ^ 2).sum

/-- The per-vehicle capacity constraints of build_qubo_model: for each
vehicle, the squared deviation of its column sum from max capacity. -/
def capacity_constraints (R V : ℕ) (maxCap : ℚ) (x : ℕ → ℕ → ℚ) : ℚ :=
  ((List.range V).map fun j =>
    (((List.range R).map fun i => x i j).sum - maxCap) ^ 2).sum

/-- The wait-time penalty of build_qubo_model: for each pair whose wait
time exceeds the maximum, the squared excess times the variable. -/
def time_penalty_term (R V : ℕ) (wait : ℕ → ℕ → ℚ) (maxWait : ℚ)
    (x : ℕ → ℕ → ℚ) : ℚ :=
  ((List.range R).map fun i =>
    ((List.range V).map fun j =>
      if maxWait < wait i j then (wait i j - maxWait) ^ 2 * x i j else 0).sum).sum

/-- build_qubo_model from QUBO/qubo_model.py, as the value of the
compiled objective on a binary assignment x: distance term plus the
penalty weight times the three constraint terms.  The module constants
(penalty, capacity, wait bound) are taken as parameters of the
embedding. -/
def build_qubo_model (R V : ℕ) (dist wait : ℕ → ℕ → ℚ) (P maxCap maxWait : ℚ)
    (x : ℕ → ℕ → ℚ) : ℚ :=
  distance_term R V dist x +
    P * (assignment_constraints R V x + capacity_constraints R V maxCap x +
      time_penalty_term R V wait maxWait x)

/-- The decision variables created by Array.create with shape
(riders, vehicles): one per rider-vehicle pair. -/
def model_vars (R V : ℕ) : List (ℕ × ℕ) :=
  (List.range R).flatMap fun i => (List.range V).map fun j => (i, j)

/-- Modelled from the spec: the quadratic objective exactly as section
4.1 writes it, used to compare build_qubo_model against the spec
formula. -/
def specObjective (R V : ℕ) (dist wait : ℕ → ℕ → ℚ) (P maxCap maxWait : ℚ)
    (x : ℕ → ℕ → ℚ) : ℚ :=
  (∑ i ∈ Finset.range R, ∑ j ∈ Finset.range V, dist i j * x i j) +
    P * ((∑ i ∈ Finset.range R, ((∑ j ∈ Finset.range V, x i j) - 1) ^ 2) +
      (∑ j ∈ Finset.range V, ((∑ i ∈ Finset.range R, x i j) - maxCap) ^ 2) +
      (∑ i ∈ Finset.range R, ∑ j ∈ Finset.range V,
        if maxWait < wait i j then (wait i j - maxWait) ^ 2 * x i j else 0))

/-- A vehicle of the traffic simulation: id, current position, person
capacity as read and written through the world API, and the current
route target (changeTarget replaces it). -/
structure Vehicle where
  vid : ℕ
  pos : ℚ × ℚ
  cap : ℤ
  target : Option (ℚ × ℚ)
deriving DecidableEq

/-- One ride request row: pickup and dropoff coordinates. -/
structure Trip where
  pickup : ℚ × ℚ
  dropoff : ℚ × ℚ
deriving DecidableEq

/-- The part of a vehicle the greedy scan reads: id, position,
capacity. -/
def vehView (v : Vehicle) : ℕ × (ℚ × ℚ) × ℤ := (v.vid, v.pos, v.cap)

/-- assign_ride from Code/simulate_traffic.py.  The try block issues
changeTarget to the pickup node, changeTarget to the dropoff node, then
decrements the person capacity; a rejected target update raises, the
handler reports the failure and the statements already executed are not
rolled back.  The unreach oracle says which target updates the external
world rejects.  Returns the resulting vehicle and whether the
assignment succeeded. -/
def assign_ride (unreach : ℕ → ℚ × ℚ → Bool) (v : Vehicle) (t : Trip) :
    Vehicle × Bool :=
  if unreach v.vid t.pickup then (v, false)
  else
    let v1 : Vehicle := ⟨v.vid, v.pos, v.cap, some t.pickup⟩
    if unreach v1.vid t.dropoff then (v1, false)
    else (⟨v1.vid, v1.pos, v1.cap - 1, some t.dropoff⟩, true)

/-- One vehicle of the scan of greedy_assignment: a vehicle with
positive remaining capacity replaces the running best candidate
(id and distance) only when strictly closer to the pickup, so the
first seen wins ties; a vehicle without capacity is skipped. -/
def scanStep (t : Trip) (acc : Option (ℕ × ℚ)) (w : ℕ × (ℚ × ℚ) × ℤ) :
    Option (ℕ × ℚ) :=
  if 0 < w.2.2 then
    match acc with
    | none => some (w.1, calculate_distance w.2.1 t.pickup)
    | some bd =>
      if calculate_distance w.2.1 t.pickup < bd.2 then
        some (w.1, calculate_distance w.2.1 t.pickup)
      else some bd
  else acc

/-- The scan of greedy_assignment over the vehicle views in list
order. -/
def bestScan (t : Trip) : Option (ℕ × ℚ) → List (ℕ × (ℚ × ℚ) × ℤ) →
    Option (ℕ × ℚ)
  | acc, [] => acc
  | acc, w :: rest => bestScan t (scanStep t acc w) rest

/-- The vehicle chosen by greedy_assignment for one trip: the first
vehicle with positive capacity at minimal Manhattan distance from its
position to the trip's pickup, none when no vehicle has capacity. -/
def best_vehicle (vehicles : List Vehicle) (t : Trip) : Option ℕ :=
  (bestScan t none (vehicles.map vehView)).map fun bd => bd.1

/-- One iteration of the trip loop of greedy_assignment: choose the
best vehicle for the trip and, when one exists, run assign_ride on it,
recording (rider id, success flag) in the log.  When no vehicle has
free capacity nothing happens and the request stays pending. -/
def greedy_step (unreach : ℕ → ℚ × ℚ → Bool)
    (st : List Vehicle × List (ℕ × Bool)) (rt : ℕ × Trip) :
    List Vehicle × List (ℕ × Bool) :=
  match best_vehicle st.1 rt.2 with
  | none => st
  | some bid =>
    match st.1.find? fun v => v.vid == bid with
    | none => st
    | some v =>
      let res := assign_ride unreach v rt.2
      (st.1.map fun w => if w.vid == bid then res.1 else w,
       st.2 ++ [(rt.1, res.2)])

/-- greedy_assignment from Code/simulate_traffic.py: process all trips
of the tick in order, threading the vehicle list and accumulating the
per-rider outcome log. -/
def greedy_assignment (unreach : ℕ → ℚ × ℚ → Bool) (vehicles : List Vehicle)
    (trips : List (ℕ × Trip)) : List Vehicle × List (ℕ × Bool) :=
  trips.foldl (greedy_step unreach) (vehicles, [])

/-!  Theorems.  -/

/-- The running total of the route-reconstruction loop stays equal to
the sum of the distance_from_previous fields of the stops built so
far. -/
theorem routeFold_total (ps ds : List (ℚ × ℚ)) :
    ∀ (idxs : List ℕ) (stops : List Stop) (total : ℚ) (pos : ℚ × ℚ),
      total = (stops.map Stop.distance_from_previous).sum →
      (routeFold ps ds idxs (stops, total, pos)).2.1 =
        ((routeFold ps ds idxs (stops, total, pos)).1.map
          Stop.distance_from_previous).sum := by
  intro idxs
  induction idxs with
  | nil => intro stops total pos h; simpa [routeFold] using h
  | cons idx rest ih =>
    intro stops total pos h
    rw [routeFold]
    apply ih
    simp [h]

/-- Claim C9: an empty assigned-rider list yields the empty route with
total_distance 0 and estimated_time 0. -/
theorem process_vehicle_route_empty (vid : ℕ) :
    (process_vehicle_route vid []).route = [] ∧
      (process_vehicle_route vid []).total_distance = 0 ∧
      (process_vehicle_route vid []).estimated_time = 0 := by
  simp [process_vehicle_route]

/-- Claim C7: for every artifact produced by the route builder, the
reported total_distance is exactly the sum of the
distance_from_previous fields over its stops, and estimated_time is
total_distance times 1000 over the average speed. -/
theorem process_vehicle_route_distance_consistent (vid : ℕ)
    (riders : List RiderData) :
    (process_vehicle_route vid riders).total_distance =
      ((process_vehicle_route vid riders).route.map
        Stop.distance_from_previous).sum ∧
      (process_vehicle_route vid riders).estimated_time =
        (process_vehicle_route vid riders).total_distance * 1000 / AVG_SPEED := by
  by_cases hr : riders.isEmpty
  · constructor
    · simp [process_vehicle_route, hr]
    · simp [process_vehicle_route, hr]
  · constructor
    · simpa [process_vehicle_route, hr] using
        routeFold_total (riders.map (·.pickup)) (riders.map (·.dropoff))
          (optimize_route (riders.map (·.pickup)) (riders.map (·.dropoff)))
          [] 0 (0, 0) (by simp)
    · simp [process_vehicle_route, hr]

/-- Claim C1 (failing-input evaluation): on a single rider whose
dropoff lies at the route start, the built route visits the dropoff
Stop at index 0 and the pickup Stop at index 1, violating
pickup-before-dropoff precedence. -/
theorem route_visits_dropoff_before_pickup :
    (process_vehicle_route 0 [⟨(5, 5), (0, 0)⟩]).route.map
        (fun s => (s.kind, s.rider_id)) =
      [(StopKind.dropoff, 0), (StopKind.pickup, 0)] := by
  norm_num [process_vehicle_route, optimize_route, routePoints, entriesFrom,
    optRouteGo, argminKey, adjustRemaining, findIdxFrom, calculate_distance,
    routeFold, List.range_succ]

/-- Claim C4 (counterexample): on the worked example the route
builder's total_distance is 7, not 8 as the claim states. -/
theorem worked_example_total_is_not_eight :
    (process_vehicle_route 0 [⟨(0, 2), (0, 5)⟩, ⟨(1, 0), (1, 1)⟩]).total_distance
        = 7 ∧
      (process_vehicle_route 0 [⟨(0, 2), (0, 5)⟩, ⟨(1, 0), (1, 1)⟩]).total_distance
        ≠ 8 := by
  constructor
  · norm_num [process_vehicle_route, optimize_route, routePoints, entriesFrom,
      optRouteGo, argminKey, adjustRemaining, findIdxFrom, calculate_distance,
      routeFold, List.range_succ]
  · norm_num [process_vehicle_route, optimize_route, routePoints, entriesFrom,
      optRouteGo, argminKey, adjustRemaining, findIdxFrom, calculate_distance,
      routeFold, List.range_succ]

/-- Claim C4 (amended): on the worked example the route builder visits
B-pickup, B-dropoff, A-pickup, A-dropoff in that order with per-step
Manhattan distances 1, 1, 2, 3, total_distance 7 and estimated_time
700. -/
theorem worked_example_route :
    (process_vehicle_route 0 [⟨(0, 2), (0, 5)⟩, ⟨(1, 0), (1, 1)⟩]).route.map
        (fun s => (s.kind, s.rider_id, s.distance_from_previous)) =
      [(StopKind.pickup, 1, 1), (StopKind.dropoff, 1, 1),
        (StopKind.pickup, 0, 2), (StopKind.dropoff, 0, 3)] ∧
      (process_vehicle_route 0 [⟨(0, 2), (0, 5)⟩, ⟨(1, 0), (1, 1)⟩]).total_distance
        = 7 ∧
      (process_vehicle_route 0 [⟨(0, 2), (0, 5)⟩, ⟨(1, 0), (1, 1)⟩]).estimated_time
        = 700 := by
  refine ⟨?_, ?_, ?_⟩ <;>
    norm_num [process_vehicle_route, optimize_route, routePoints, entriesFrom,
      optRouteGo, argminKey, adjustRemaining, findIdxFrom, calculate_distance,
      routeFold, AVG_SPEED, List.range_succ]

/-- Claim C2 (failing-input evaluation): an assignment placing rider 0
in two vehicles while covering both riders is accepted by
validate_solution even though a rider id is duplicated. -/
theorem validate_solution_accepts_duplicate :
    validate_solution [[0, 1], [0]] 2 = true ∧
      ¬ ([[0, 1], [0]] : List (List ℕ)).flatten.Nodup := by
  decide

/-- Claim C3 (counterexample): an assignment giving one vehicle five
riders, exceeding MAX_CAPACITY = 4, is still accepted as valid by
validate_solution. -/
theorem validate_solution_accepts_over_capacity :
    validate_solution [[0, 1, 2, 3, 4]] 5 = true ∧
      MAX_CAPACITY < (([[0, 1, 2, 3, 4]] : List (List ℕ)).getD 0 []).length := by
  decide

/-- Claim C3 (amended): validation looks only at the combined multiset
of assigned rider ids, never at their distribution over vehicles, so
per-vehicle capacity is not checked. -/
theorem validate_solution_ignores_distribution (A B : List (List ℕ)) (R : ℕ)
    (h : A.flatten.Perm B.flatten) :
    validate_solution A R = validate_solution B R := by
  simp [validate_solution, h.dedup.length_eq]

/-- Witness for validate_solution_ignores_distribution: the overloaded
single-vehicle assignment and its fully spread-out redistribution are
judged identically. -/
theorem validate_solution_ignores_distribution_witness :
    validate_solution [[0, 1, 2, 3, 4]] 5 =
      validate_solution [[0], [1], [2], [3], [4]] 5 :=
  validate_solution_ignores_distribution _ _ _ (by decide)

/-- Claim C5: for all rider and vehicle counts, matrices, penalty
weight, capacity bound and wait bound, the built objective equals the
quadratic form of the spec on every assignment of the binary
variables, and the variable array covers every rider-vehicle pair. -/
theorem build_qubo_model_matches_spec (R V : ℕ) (dist wait : ℕ → ℕ → ℚ)
    (P maxCap maxWait : ℚ) (x : ℕ → ℕ → ℚ) :
    build_qubo_model R V dist wait P maxCap maxWait x =
        specObjective R V dist wait P maxCap maxWait x ∧
      ∀ i j, i < R → j < V → (i, j) ∈ model_vars R V := by
  constructor
  · rfl
  · intro i j hi hj
    simp only [model_vars, List.mem_flatMap, List.mem_map, List.mem_range]
    exact ⟨i, hi, j, hj, rfl⟩

/-- Witness for build_qubo_model_matches_spec at one rider, one
vehicle and concrete matrices. -/
theorem build_qubo_model_matches_spec_witness :
    build_qubo_model 1 1 (fun _ _ => 3) (fun _ _ => 700) 5000 4 600
        (fun _ _ => 1) =
      specObjective 1 1 (fun _ _ => 3) (fun _ _ => 700) 5000 4 600
        (fun _ _ => 1) ∧
      (0, 0) ∈ model_vars 1 1 :=
  ⟨(build_qubo_model_matches_spec 1 1 (fun _ _ => 3) (fun _ _ => 700) 5000 4 600
      (fun _ _ => 1)).1,
    (build_qubo_model_matches_spec 1 1 (fun _ _ => 3) (fun _ _ => 700) 5000 4 600
      (fun _ _ => 1)).2 0 0 (by decide) (by decide)⟩

/-- The enumerated entries of a list are as long as the list. -/
theorem entriesFrom_length (t : ℕ) :
    ∀ (l : List (ℚ × ℚ)) (i : ℕ), (entriesFrom t i l).length = l.length := by
  intro l
  induction l with
  | nil => intro i; rfl
  | cons c rest ih => intro i; simp [entriesFrom, ih]

/-- Indexing into the enumerated entries of a list. -/
theorem entriesFrom_getD (t : ℕ) :
    ∀ (l : List (ℚ × ℚ)) (i k : ℕ), k < l.length →
      (entriesFrom t i l).getD k default = ⟨l.getD k (0, 0), t, i + k⟩ := by
  intro l
  induction l with
  | nil => intro i k hk; simp at hk
  | cons c rest ih =>
    intro i k hk
    cases k with
    | zero => rfl
    | succ k =>
      have hk2 : k < rest.length := by simpa using hk
      have := ih (i + 1) k hk2
      simp only [entriesFrom, List.getD_cons_succ, this]
      congr 1
      omega

/-- Length of the combined points list. -/
theorem routePoints_length (ps ds : List (ℚ × ℚ)) :
    (routePoints ps ds).length = ps.length + ds.length := by
  simp [routePoints, entriesFrom_length]

/-- Below the pickup block boundary, the combined points list holds the
pickup entries. -/
theorem routePoints_getD_lt (ps ds : List (ℚ × ℚ)) {i : ℕ} (h : i < ps.length) :
    (routePoints ps ds).getD i default = ⟨ps.getD i (0, 0), 0, i⟩ := by
  rw [routePoints, List.getD_append _ _ _ _ (by rw [entriesFrom_length]; exact h),
    entriesFrom_getD 0 ps 0 i h]
  simp

/-- From the pickup block boundary on, the combined points list holds
the dropoff entries. -/
theorem routePoints_getD_ge (ps ds : List (ℚ × ℚ)) {i : ℕ}
    (h1 : ps.length ≤ i) (h2 : i < ps.length + ds.length) :
    (routePoints ps ds).getD i default =
      ⟨ds.getD (i - ps.length) (0, 0), 1, i - ps.length⟩ := by
  rw [routePoints, List.getD_append_right _ _ _ _ (by rw [entriesFrom_length]; exact h1),
    entriesFrom_length, entriesFrom_getD 1 ds 0 (i - ps.length) (by omega)]
  simp

/-- Every pickup entry fails the dropoff-of-rider test. -/
theorem entriesFrom_zero_pred_false (rider : ℕ) :
    ∀ (l : List (ℚ × ℚ)) (i : ℕ) (e : PointEntry), e ∈ entriesFrom 0 i l →
      (e.ptype == 1 && e.ridx == rider) = false := by
  intro l
  induction l with
  | nil => intro i e he; simp [entriesFrom] at he
  | cons c rest ih =>
    intro i e he
    rcases (List.mem_cons).mp he with h | h
    · subst h; rfl
    · exact ih (i + 1) e h

/-- A first-index search over an appended list whose first part never
matches continues in the second part with the counter advanced. -/
theorem findIdxFrom_append_none (p : PointEntry → Bool) :
    ∀ (l1 l2 : List PointEntry) (k : ℕ), (∀ e ∈ l1, p e = false) →
      findIdxFrom p (l1 ++ l2) k = findIdxFrom p l2 (k + l1.length) := by
  intro l1
  induction l1 with
  | nil => intro l2 k _; simp [findIdxFrom]
  | cons e rest ih =>
    intro l2 k h
    have he : p e = false := h e (List.mem_cons_self e rest)
    have hrec := ih l2 (k + 1) (fun q hq => h q (List.mem_cons_of_mem e hq))
    simp only [List.cons_append, findIdxFrom, he, Bool.false_eq_true, if_false,
      List.append_eq, hrec, List.length_cons]
    have heq : k + 1 + rest.length = k + (rest.length + 1) := by omega
    rw [heq]

/-- Searching the dropoff entries for a rider inside their index range
finds exactly that rider's entry. -/
theorem findIdxFrom_entriesFrom_one (rider : ℕ) :
    ∀ (l : List (ℚ × ℚ)) (i k : ℕ), i ≤ rider → rider < i + l.length →
      findIdxFrom (fun q => q.ptype == 1 && q.ridx == rider)
        (entriesFrom 1 i l) k = some (k + (rider - i)) := by
  intro l
  induction l with
  | nil => intro i k h1 h2; simp at h2; omega
  | cons c rest ih =>
    intro i k h1 h2
    by_cases hi : i = rider
    · subst hi
      simp [entriesFrom, findIdxFrom]
    · have h1b : i + 1 ≤ rider := by omega
      have h2b : rider < (i + 1) + rest.length := by simp at h2; omega
      simp only [entriesFrom, findIdxFrom]
      rw [if_neg (by simp [hi])]
      rw [ih (i + 1) (k + 1) h1b h2b]
      congr 1
      omega

/-- In the combined points list, the first entry that is the dropoff
of a given rider sits right after the pickup block, at index
ps.length + rider. -/
theorem findDropoff_routePoints (ps ds : List (ℚ × ℚ)) (rider : ℕ)
    (h : rider < ds.length) :
    findIdxFrom (fun q => q.ptype == 1 && q.ridx == rider)
      (routePoints ps ds) 0 = some (ps.length + rider) := by
  rw [routePoints,
    findIdxFrom_append_none _ _ _ _ (entriesFrom_zero_pred_false rider ps 0),
    entriesFrom_length, Nat.zero_add,
    findIdxFrom_entriesFrom_one rider ds 0 (ps.length)
      (Nat.zero_le rider) (by simpa using h)]
  simp

/-- With as many dropoffs as pickups, the precedence-adjustment branch
of optimize_route never changes the remaining set: the only index it
filters out is the rider's own dropoff, which it immediately re-adds at
its sorted position. -/
theorem adjustRemaining_eq (ps ds : List (ℚ × ℚ)) (hlen : ds.length = ps.length)
    (nearest : ℕ) (rem : List ℕ) (hn : nearest < ps.length + ds.length)
    (hs : rem.Sorted (· < ·)) (hb : ∀ i ∈ rem, i < ps.length + ds.length) :
    adjustRemaining (routePoints ps ds) nearest rem = rem := by
  unfold adjustRemaining
  by_cases hp : nearest < ps.length
  · rw [routePoints_getD_lt ps ds hp]
    rw [if_pos rfl]
    have hr : nearest < ds.length := by omega
    rw [findDropoff_routePoints ps ds nearest hr]
    simp only []
    by_cases hmem : ps.length + nearest ∈ rem
    · rw [if_pos hmem]
      have hfc : rem.filter
          (fun i => !(((routePoints ps ds).getD i default).ptype == 1 &&
            ((routePoints ps ds).getD i default).ridx ==
              (⟨ps.getD nearest (0, 0), 0, nearest⟩ : PointEntry).ridx)) =
          rem.filter (fun x => x != ps.length + nearest) := by
        apply List.filter_congr
        intro a ha
        have hab : a < ps.length + ds.length := hb a ha
        by_cases hap : a < ps.length
        · rw [routePoints_getD_lt ps ds hap]
          have hne : a ≠ ps.length + nearest := by omega
          simp [hne]
        · rw [routePoints_getD_ge ps ds (by omega) hab]
          by_cases hcase : a = ps.length + nearest
          · subst hcase
            simp
          · have hsub : a - ps.length ≠ nearest := by omega
            have h1 : ((a - ps.length : ℕ) == nearest) = false := by simp [hsub]
            have h2 : ((a : ℕ) != (ps.length + nearest)) = true := by simp [hcase]
            simp [h1, h2]
      rw [hfc]
      have hnd : rem.Nodup := hs.imp ne_of_lt
      rw [← hnd.erase_eq_filter]
      exact List.orderedInsert_erase _ _ hmem (hs.imp le_of_lt)
    · rw [if_neg hmem]
  · rw [routePoints_getD_ge ps ds (by omega) hn]
    simp

/-- The nearest-point selection returns none exactly on the empty
candidate list. -/
theorem argminKey_eq_none (f : ℕ → ℚ) :
    ∀ l : List ℕ, argminKey f l = none ↔ l = [] := by
  intro l
  cases l with
  | nil => simp [argminKey]
  | cons i rest =>
    simp only [argminKey]
    cases argminKey f rest with
    | none => simp
    | some j =>
      by_cases h : f j < f i
      · simp [h]
      · simp [h]

/-- The nearest-point selection picks a member of the candidate
list. -/
theorem argminKey_mem (f : ℕ → ℚ) :
    ∀ (l : List ℕ) (i : ℕ), argminKey f l = some i → i ∈ l := by
  intro l
  induction l with
  | nil => intro i h; simp [argminKey] at h
  | cons a rest ih =>
    intro i h
    rw [argminKey] at h
    cases hr : argminKey f rest with
    | none =>
      rw [hr] at h
      have h2 : some a = some i := h
      simp only [Option.some.injEq] at h2
      simp [← h2]
    | some j =>
      rw [hr] at h
      have h2 : (if f j < f a then some j else some a) = some i := h
      by_cases hc : f j < f a
      · rw [if_pos hc] at h2
        simp only [Option.some.injEq] at h2
        subst h2
        exact List.mem_cons_of_mem a (ih j hr)
      · rw [if_neg hc] at h2
        simp only [Option.some.injEq] at h2
        simp [← h2]

/-- The selection loop of optimize_route emits every remaining index
exactly once: with enough fuel, a sorted and bounded remaining set is
emitted as a permutation of itself. -/
theorem optRouteGo_perm (ps ds : List (ℚ × ℚ)) (hlen : ds.length = ps.length) :
    ∀ (fuel : ℕ) (rem : List ℕ) (pos : ℚ × ℚ),
      rem.length ≤ fuel → rem.Sorted (· < ·) →
      (∀ i ∈ rem, i < ps.length + ds.length) →
      (optRouteGo (routePoints ps ds) fuel pos rem).Perm rem := by
  intro fuel
  induction fuel with
  | zero =>
    intro rem pos hf _ _
    have : rem = [] := List.length_eq_zero.mp (Nat.le_zero.mp hf)
    simp [optRouteGo, this]
  | succ fuel ih =>
    intro rem pos hf hs hb
    rw [optRouteGo]
    cases hmin : argminKey
        (fun i => calculate_distance pos ((routePoints ps ds).getD i default).coord)
        rem with
    | none =>
      have : rem = [] := (argminKey_eq_none _ rem).mp hmin
      simp [this]
    | some nearest =>
      show (nearest :: optRouteGo (routePoints ps ds) fuel
        ((routePoints ps ds).getD nearest default).coord
        (adjustRemaining (routePoints ps ds) nearest (rem.erase nearest))).Perm rem
      have hmem : nearest ∈ rem := argminKey_mem _ rem nearest hmin
      have hnlt : nearest < ps.length + ds.length := hb nearest hmem
      have hes : (rem.erase nearest).Sorted (· < ·) :=
        hs.sublist (rem.erase_sublist nearest)
      have heb : ∀ i ∈ rem.erase nearest, i < ps.length + ds.length :=
        fun i hi => hb i (List.erase_subset nearest rem hi)
      rw [adjustRemaining_eq ps ds hlen nearest _ hnlt hes heb]
      have hlen2 : (rem.erase nearest).length ≤ fuel := by
        rw [List.length_erase_of_mem hmem]
        have := List.length_pos.mpr (List.ne_nil_of_mem hmem)
        omega
      exact (((ih _ _ hlen2 hes heb).cons nearest).trans
        (List.perm_cons_erase hmem).symm)

/-- Claim C10: for any n riders (as many dropoffs as pickups) the
route returned by optimize_route is a permutation of all 2n point
indices: every pickup and every dropoff appears exactly once. -/
theorem optimize_route_is_permutation (ps ds : List (ℚ × ℚ))
    (hlen : ds.length = ps.length) :
    (optimize_route ps ds).Perm (List.range (2 * ps.length)) := by
  unfold optimize_route
  by_cases hps : ps.isEmpty
  · have h0 : ps.length = 0 := by simpa [List.isEmpty_iff_length_eq_zero] using hps
    simp [hps, h0]
  · rw [if_neg hps]
    have hl : (routePoints ps ds).length = 2 * ps.length := by
      rw [routePoints_length]
      omega
    show (optRouteGo (routePoints ps ds) (routePoints ps ds).length (0, 0)
      (List.range (routePoints ps ds).length)).Perm (List.range (2 * ps.length))
    rw [hl]
    exact optRouteGo_perm ps ds hlen (2 * ps.length) (List.range (2 * ps.length))
      (0, 0) (by simp) (List.sorted_lt_range _)
      (fun i hi => by
        have := List.mem_range.mp hi
        omega)

/-- Witness for optimize_route_is_permutation on two concrete
riders. -/
theorem optimize_route_is_permutation_witness :
    (optimize_route [((0 : ℚ), 0), ((3 : ℚ), 1)] [((2 : ℚ), 2), ((1 : ℚ), 1)]).Perm
      (List.range 4) :=
  optimize_route_is_permutation [((0 : ℚ), 0), ((3 : ℚ), 1)]
    [((2 : ℚ), 2), ((1 : ℚ), 1)] (by decide)

/-- One scan step yields no candidate exactly when it had none and the
vehicle has no free capacity. -/
theorem scanStep_eq_none (t : Trip) (acc : Option (ℕ × ℚ))
    (w : ℕ × (ℚ × ℚ) × ℤ) :
    scanStep t acc w = none ↔ acc = none ∧ ¬ 0 < w.2.2 := by
  unfold scanStep
  by_cases hw : 0 < w.2.2
  · rw [if_pos hw]
    cases acc with
    | none => simp [hw]
    | some bd =>
      by_cases hd : calculate_distance w.2.1 t.pickup < bd.2
      · simp [hd, hw]
      · simp [hd, hw]
  · rw [if_neg hw]
    simp [hw]

/-- The greedy scan yields no candidate exactly when it started with
none and no scanned vehicle has free capacity. -/
theorem bestScan_eq_none (t : Trip) :
    ∀ (l : List (ℕ × (ℚ × ℚ) × ℤ)) (acc : Option (ℕ × ℚ)),
      bestScan t acc l = none ↔ acc = none ∧ ∀ w ∈ l, ¬ 0 < w.2.2 := by
  intro l
  induction l with
  | nil => intro acc; simp [bestScan]
  | cons w rest ih =>
    intro acc
    rw [bestScan, ih, scanStep_eq_none, List.forall_mem_cons]
    tauto

/-- The candidate kept by the greedy scan is at least as close to the
pickup as every scanned vehicle with free capacity, and at least as
good as the incoming candidate. -/
theorem bestScan_min (t : Trip) :
    ∀ (l : List (ℕ × (ℚ × ℚ) × ℤ)) (acc : Option (ℕ × ℚ)) (b : ℕ × ℚ),
      bestScan t acc l = some b →
      (∀ w ∈ l, 0 < w.2.2 → b.2 ≤ calculate_distance w.2.1 t.pickup) ∧
        (∀ a : ℕ × ℚ, acc = some a → b.2 ≤ a.2) := by
  intro l
  induction l with
  | nil =>
    intro acc b h
    have hb : acc = some b := h
    refine ⟨by simp, ?_⟩
    intro a ha
    rw [hb] at ha
    simp only [Option.some.injEq] at ha
    rw [ha]
  | cons w rest ih =>
    intro acc b h
    rw [bestScan] at h
    obtain ⟨hrest, hacc2⟩ := ih (scanStep t acc w) b h
    rw [List.forall_mem_cons]
    by_cases hw : 0 < w.2.2
    · cases acc with
      | none =>
        have ha2 : scanStep t none w = some (w.1, calculate_distance w.2.1 t.pickup) := by
          simp [scanStep, hw]
        refine ⟨⟨fun _ => ?_, hrest⟩, by simp⟩
        exact hacc2 _ ha2
      | some a =>
        by_cases hd : calculate_distance w.2.1 t.pickup < a.2
        · have ha2 : scanStep t (some a) w =
              some (w.1, calculate_distance w.2.1 t.pickup) := by
            simp [scanStep, hw, hd]
          have hble : b.2 ≤ calculate_distance w.2.1 t.pickup := by
            simpa using hacc2 _ ha2
          refine ⟨⟨fun _ => hble, hrest⟩, ?_⟩
          intro a2 ha2eq
          simp only [Option.some.injEq] at ha2eq
          subst ha2eq
          exact le_of_lt (lt_of_le_of_lt hble hd)
        · have ha2 : scanStep t (some a) w = some a := by
            simp [scanStep, hw, hd]
          have hba : b.2 ≤ a.2 := hacc2 _ ha2
          refine ⟨⟨fun _ => le_trans hba (le_of_not_lt hd), hrest⟩, ?_⟩
          intro a2 ha2eq
          simp only [Option.some.injEq] at ha2eq
          subst ha2eq
          exact hba
    · have ha2 : scanStep t acc w = acc := by simp [scanStep, hw]
      rw [ha2] at hacc2
      exact ⟨⟨fun hc => absurd hc hw, hrest⟩, hacc2⟩

/-- The candidate kept by the greedy scan either was the incoming one
or comes from a scanned vehicle with free capacity that is strictly
closer to the pickup than the incoming candidate and than every
earlier vehicle with free capacity (first seen wins ties). -/
theorem bestScan_first (t : Trip) :
    ∀ (l : List (ℕ × (ℚ × ℚ) × ℤ)) (acc : Option (ℕ × ℚ)) (b : ℕ × ℚ),
      bestScan t acc l = some b →
      acc = some b ∨
        ∃ l1 w l2, l = l1 ++ w :: l2 ∧ 0 < w.2.2 ∧ w.1 = b.1 ∧
          calculate_distance w.2.1 t.pickup = b.2 ∧
          (∀ a : ℕ × ℚ, acc = some a → b.2 < a.2) ∧
          (∀ w2 ∈ l1, 0 < w2.2.2 → b.2 < calculate_distance w2.2.1 t.pickup) := by
  intro l
  induction l with
  | nil =>
    intro acc b h
    exact Or.inl h
  | cons w rest ih =>
    intro acc b h
    rw [bestScan] at h
    rcases ih (scanStep t acc w) b h with hacc2 | ⟨l1, v, l2, hsplit, hv1, hv2, hv3, hv4, hv5⟩
    · by_cases hw : 0 < w.2.2
      · cases acc with
        | none =>
          have ha2 : scanStep t none w =
              some (w.1, calculate_distance w.2.1 t.pickup) := by
            simp [scanStep, hw]
          rw [ha2] at hacc2
          simp only [Option.some.injEq] at hacc2
          refine Or.inr ⟨[], w, rest, by simp, hw, ?_, ?_, by simp, by simp⟩
          · rw [← hacc2]
          · rw [← hacc2]
        | some a =>
          by_cases hd : calculate_distance w.2.1 t.pickup < a.2
          · have ha2 : scanStep t (some a) w =
                some (w.1, calculate_distance w.2.1 t.pickup) := by
              simp [scanStep, hw, hd]
            rw [ha2] at hacc2
            simp only [Option.some.injEq] at hacc2
            refine Or.inr ⟨[], w, rest, by simp, hw, ?_, ?_, ?_, by simp⟩
            · rw [← hacc2]
            · rw [← hacc2]
            · intro a2 ha2eq
              simp only [Option.some.injEq] at ha2eq
              subst ha2eq
              rw [← hacc2]
              exact hd
          · have ha2 : scanStep t (some a) w = some a := by
              simp [scanStep, hw, hd]
            rw [ha2] at hacc2
            exact Or.inl hacc2
      · have ha2 : scanStep t acc w = acc := by simp [scanStep, hw]
        rw [ha2] at hacc2
        exact Or.inl hacc2
    · refine Or.inr ⟨w :: l1, v, l2, by rw [hsplit, List.cons_append], hv1, hv2, hv3,
        ?_, ?_⟩
      · intro a ha
        by_cases hw : 0 < w.2.2
        · cases acc with
          | none => cases ha
          | some a0 =>
            have haa : a0 = a := by simpa using ha
            subst haa
            by_cases hd : calculate_distance w.2.1 t.pickup < a0.2
            · have ha2 : scanStep t (some a0) w =
                  some (w.1, calculate_distance w.2.1 t.pickup) := by
                simp [scanStep, hw, hd]
              exact lt_trans (hv4 _ ha2) hd
            · have ha2 : scanStep t (some a0) w = some a0 := by
                simp [scanStep, hw, hd]
              exact hv4 _ ha2
        · have ha2 : scanStep t acc w = acc := by simp [scanStep, hw]
          rw [ha2] at hv4
          exact hv4 a ha
      · rw [List.forall_mem_cons]
        refine ⟨?_, hv5⟩
        intro hw
        cases acc with
        | none =>
          have ha2 : scanStep t none w =
              some (w.1, calculate_distance w.2.1 t.pickup) := by
            simp [scanStep, hw]
          exact hv4 _ ha2
        | some a =>
          by_cases hd : calculate_distance w.2.1 t.pickup < a.2
          · have ha2 : scanStep t (some a) w =
                some (w.1, calculate_distance w.2.1 t.pickup) := by
              simp [scanStep, hw, hd]
            exact hv4 _ ha2
          · have ha2 : scanStep t (some a) w = some a := by
              simp [scanStep, hw, hd]
            exact lt_of_lt_of_le (hv4 _ ha2) (le_of_not_lt hd)

/-- Claim C8: the greedy assigner considers only vehicles with
strictly positive remaining capacity and among those picks the one at
minimal Manhattan distance to the request's pickup, first seen winning
ties; with no vehicle of free capacity the request stays pending (the
step leaves the state untouched); on the concrete example, V1 at
(0,0) with 2 free seats beats V2 at (10,10) with 0 free seats. -/
theorem greedy_considers_capacity_and_distance :
    (∀ (vs : List Vehicle) (t : Trip) (b : ℕ),
        best_vehicle vs t = some b →
        ∃ l1 v l2, vs = l1 ++ v :: l2 ∧ v.vid = b ∧ 0 < v.cap ∧
          (∀ w ∈ vs, 0 < w.cap →
            calculate_distance v.pos t.pickup ≤ calculate_distance w.pos t.pickup) ∧
          (∀ w ∈ l1, 0 < w.cap →
            calculate_distance v.pos t.pickup < calculate_distance w.pos t.pickup)) ∧
      (∀ (vs : List Vehicle) (t : Trip),
        best_vehicle vs t = none ↔ ∀ v ∈ vs, ¬ 0 < v.cap) ∧
      (∀ (u : ℕ → ℚ × ℚ → Bool) (st : List Vehicle × List (ℕ × Bool))
        (rt : ℕ × Trip), best_vehicle st.1 rt.2 = none → greedy_step u st rt = st) ∧
      best_vehicle [⟨1, (0, 0), 2, none⟩, ⟨2, (10, 10), 0, none⟩]
        ⟨(1, 1), (9, 9)⟩ = some 1 := by
  refine ⟨?_, ?_, ?_, rfl⟩
  · intro vs t b h
    rw [best_vehicle, Option.map_eq_some'] at h
    obtain ⟨bd, hscan, hb1⟩ := h
    rcases bestScan_first t (vs.map vehView) none bd hscan with h0 |
      ⟨l1v, wv, l2v, hsplit, hc, hid, hkey, _, hfirst⟩
    · cases h0
    obtain ⟨l1, l2x, hvs, hm1, hm2⟩ := List.append_eq_map_iff.mp hsplit.symm
    obtain ⟨v, l2, hl2x, hv, hm3⟩ := List.map_eq_cons_iff.mp hm2
    subst hl2x
    have hmin := (bestScan_min t (vs.map vehView) none bd hscan).1
    have hkv : calculate_distance v.pos t.pickup = bd.2 := by
      rw [← hv] at hkey
      exact hkey
    refine ⟨l1, v, l2, hvs, ?_, ?_, ?_, ?_⟩
    · rw [← hv] at hid
      rw [← hb1, ← hid]
      rfl
    · rw [← hv] at hc
      exact hc
    · intro w hw hwc
      have hmem : vehView w ∈ vs.map vehView := List.mem_map_of_mem _ hw
      have h1 := hmin (vehView w) hmem hwc
      rw [hkv]
      exact h1
    · intro w hw hwc
      have hmem : vehView w ∈ l1v := by
        rw [← hm1]
        exact List.mem_map_of_mem _ hw
      have h1 := hfirst (vehView w) hmem hwc
      rw [hkv]
      exact h1
  · intro vs t
    rw [best_vehicle, Option.map_eq_none', bestScan_eq_none]
    simp only [true_and]
    constructor
    · intro h v hv
      exact h (vehView v) (List.mem_map_of_mem _ hv)
    · intro h w hw
      obtain ⟨v, hv, rfl⟩ := List.mem_map.mp hw
      exact h v hv
  · intro u st rt h
    simp [greedy_step, h]

/-- A failed assign_ride never touches the vehicle's capacity,
position or id (only a partially executed target update can
remain). -/
theorem assign_ride_failure_fields (u : ℕ → ℚ × ℚ → Bool) (v : Vehicle)
    (t : Trip) (h : (assign_ride u v t).2 = false) :
    (assign_ride u v t).1.cap = v.cap ∧ (assign_ride u v t).1.pos = v.pos ∧
      (assign_ride u v t).1.vid = v.vid := by
  unfold assign_ride at h ⊢
  by_cases h1 : u v.vid t.pickup
  · simp [h1]
  · simp only [h1, Bool.false_eq_true, if_false] at h ⊢
    by_cases h2 : u v.vid t.dropoff
    · simp [h2]
    · simp [h2] at h

/-- Two vehicles with the same id, position and capacity produce the
same assignment outcome flag and the same view: assign_ride reads
nothing else. -/
theorem assign_ride_view_congr (u : ℕ → ℚ × ℚ → Bool) (t : Trip)
    (v v' : Vehicle) (h : vehView v = vehView v') :
    (assign_ride u v t).2 = (assign_ride u v' t).2 ∧
      vehView (assign_ride u v t).1 = vehView (assign_ride u v' t).1 := by
  have h1 : v.vid = v'.vid := congrArg (fun p => p.1) h
  have h2 : v.pos = v'.pos := congrArg (fun p => p.2.1) h
  have h3 : v.cap = v'.cap := congrArg (fun p => p.2.2) h
  unfold assign_ride
  rw [← h1]
  by_cases hu1 : u v.vid t.pickup
  · simp [hu1, h]
  · simp only [hu1, Bool.false_eq_true, if_false]
    by_cases hu2 : u v.vid t.dropoff
    · simp [hu2, vehView, h1, h2, h3]
    · simp [hu2, vehView, h1, h2, h3]

/-- Finding a vehicle by id in view-equal fleets yields view-equal
results. -/
theorem find_vid_view_congr (bid : ℕ) :
    ∀ (vs vs' : List Vehicle), vs.map vehView = vs'.map vehView →
      Option.map vehView (vs.find? fun v => v.vid == bid) =
        Option.map vehView (vs'.find? fun v => v.vid == bid) := by
  intro vs
  induction vs with
  | nil =>
    intro vs' h
    cases vs' with
    | nil => rfl
    | cons b bs => simp at h
  | cons a as ih =>
    intro vs' h
    cases vs' with
    | nil => simp at h
    | cons b bs =>
      simp only [List.map_cons, List.cons.injEq] at h
      obtain ⟨hab, hmap⟩ := h
      have hvid : a.vid = b.vid := congrArg (fun p => p.1) hab
      have hc2 : (b.vid == bid) = (a.vid == bid) := by rw [hvid]
      cases hc : (a.vid == bid) with
      | true =>
        simp only [List.find?_cons, hc, hc2, if_true]
        simp [hab]
      | false =>
        simp only [List.find?_cons, hc, hc2, Bool.false_eq_true, if_false]
        exact ih bs hmap

/-- Replacing the vehicles of one id by view-equal replacements in
view-equal fleets keeps the fleets view-equal. -/
theorem update_map_view_congr (bid : ℕ) (r r' : Vehicle)
    (hr : vehView r = vehView r') :
    ∀ (vs vs' : List Vehicle), vs.map vehView = vs'.map vehView →
      ((vs.map fun w => if w.vid == bid then r else w).map vehView =
        (vs'.map fun w => if w.vid == bid then r' else w).map vehView) := by
  intro vs
  induction vs with
  | nil =>
    intro vs' h
    cases vs' with
    | nil => rfl
    | cons b bs => simp at h
  | cons a as ih =>
    intro vs' h
    cases vs' with
    | nil => simp at h
    | cons b bs =>
      simp only [List.map_cons, List.cons.injEq] at h
      obtain ⟨hab, hmap⟩ := h
      have hvid : a.vid = b.vid := congrArg (fun p => p.1) hab
      simp only [List.map_cons, List.cons.injEq]
      refine ⟨?_, ih bs hmap⟩
      by_cases hc : (a.vid == bid) = true
      · rw [if_pos hc, if_pos (by rw [← hvid]; exact hc)]
        exact hr
      · rw [if_neg hc, if_neg (by rw [← hvid]; exact hc)]
        exact hab

/-- One greedy step on view-equal fleets produces the same log and
view-equal fleets. -/
theorem greedy_step_view_congr (u : ℕ → ℚ × ℚ → Bool) (rt : ℕ × Trip)
    (vs vs' : List Vehicle) (log : List (ℕ × Bool))
    (h : vs.map vehView = vs'.map vehView) :
    (greedy_step u (vs, log) rt).2 = (greedy_step u (vs', log) rt).2 ∧
      (greedy_step u (vs, log) rt).1.map vehView =
        (greedy_step u (vs', log) rt).1.map vehView := by
  have hbv : best_vehicle vs rt.2 = best_vehicle vs' rt.2 := by
    rw [best_vehicle, best_vehicle, h]
  cases hb : best_vehicle vs rt.2 with
  | none =>
    have hb2 : best_vehicle vs' rt.2 = none := by rw [← hbv]; exact hb
    have e1 : greedy_step u (vs, log) rt = (vs, log) := by simp [greedy_step, hb]
    have e2 : greedy_step u (vs', log) rt = (vs', log) := by simp [greedy_step, hb2]
    rw [e1, e2]
    exact ⟨rfl, h⟩
  | some bid =>
    have hb2 : best_vehicle vs' rt.2 = some bid := by rw [← hbv]; exact hb
    have hf := find_vid_view_congr bid vs vs' h
    cases hfv : vs.find? (fun v => v.vid == bid) with
    | none =>
      rw [hfv] at hf
      cases hfv2 : vs'.find? (fun v => v.vid == bid) with
      | some w =>
        rw [hfv2] at hf
        simp at hf
      | none =>
        have e1 : greedy_step u (vs, log) rt = (vs, log) := by
          simp [greedy_step, hb, hfv]
        have e2 : greedy_step u (vs', log) rt = (vs', log) := by
          simp [greedy_step, hb2, hfv2]
        rw [e1, e2]
        exact ⟨rfl, h⟩
    | some v =>
      rw [hfv] at hf
      cases hfv2 : vs'.find? (fun v => v.vid == bid) with
      | none =>
        rw [hfv2] at hf
        simp at hf
      | some v' =>
        rw [hfv2] at hf
        simp only [Option.map_some', Option.some.injEq] at hf
        obtain ⟨hflag, hview⟩ := assign_ride_view_congr u rt.2 v v' hf
        have e1 : greedy_step u (vs, log) rt =
            (vs.map fun w => if w.vid == bid then (assign_ride u v rt.2).1 else w,
              log ++ [(rt.1, (assign_ride u v rt.2).2)]) := by
          simp [greedy_step, hb, hfv]
        have e2 : greedy_step u (vs', log) rt =
            (vs'.map fun w => if w.vid == bid then (assign_ride u v' rt.2).1 else w,
              log ++ [(rt.1, (assign_ride u v' rt.2).2)]) := by
          simp [greedy_step, hb2, hfv2]
        rw [e1, e2]
        constructor
        · simp [hflag]
        · exact update_map_view_congr bid _ _ hview vs vs' h

/-- Claim C6 (amended): when the external world rejects a target
update the rider's assignment is abandoned and reported, leaving the
vehicle's id, position and capacity untouched (only an already
executed pickup-target update is not rolled back); since the greedy
scan reads only ids, positions and capacities, the remaining requests
of the tick are then assigned exactly as they would have been
otherwise. -/
theorem assign_ride_failure_isolated :
    (∀ (u : ℕ → ℚ × ℚ → Bool) (v : Vehicle) (t : Trip),
        (assign_ride u v t).2 = false →
        (assign_ride u v t).1.cap = v.cap ∧ (assign_ride u v t).1.pos = v.pos ∧
          (assign_ride u v t).1.vid = v.vid) ∧
      (∀ (u : ℕ → ℚ × ℚ → Bool) (trips : List (ℕ × Trip))
          (vs vs' : List Vehicle) (log : List (ℕ × Bool)),
        vs.map vehView = vs'.map vehView →
        (trips.foldl (greedy_step u) (vs, log)).2 =
            (trips.foldl (greedy_step u) (vs', log)).2 ∧
          (trips.foldl (greedy_step u) (vs, log)).1.map vehView =
            (trips.foldl (greedy_step u) (vs', log)).1.map vehView) ∧
      (∀ (u : ℕ → ℚ × ℚ → Bool) (vs : List Vehicle) (log : List (ℕ × Bool))
          (rt : ℕ × Trip),
        (vs.map Vehicle.vid).Nodup →
        (greedy_step u (vs, log) rt).2 = log ++ [(rt.1, false)] →
        (greedy_step u (vs, log) rt).1.map vehView = vs.map vehView) := by
  refine ⟨assign_ride_failure_fields, ?_, ?_⟩
  · intro u trips
    induction trips with
    | nil =>
      intro vs vs' log h
      exact ⟨rfl, h⟩
    | cons rt rest ih =>
      intro vs vs' log h
      obtain ⟨hlog, hview⟩ := greedy_step_view_congr u rt vs vs' log h
      have hsplit : greedy_step u (vs', log) rt =
          ((greedy_step u (vs', log) rt).1, (greedy_step u (vs, log) rt).2) := by
        rw [hlog]
      simp only [List.foldl_cons]
      rw [hsplit]
      have hpair : greedy_step u (vs, log) rt =
          ((greedy_step u (vs, log) rt).1, (greedy_step u (vs, log) rt).2) := rfl
      rw [hpair]
      exact ih (greedy_step u (vs, log) rt).1 (greedy_step u (vs', log) rt).1
        (greedy_step u (vs, log) rt).2 hview
  · intro u vs log rt hnd hlog
    cases hb : best_vehicle vs rt.2 with
    | none =>
      simp [greedy_step, hb] at hlog
    | some bid =>
      cases hfv : vs.find? (fun v => v.vid == bid) with
      | none =>
        simp [greedy_step, hb, hfv] at hlog
      | some v =>
        have hvp : (v.vid == bid) = true := by
          have := List.find?_some hfv
          simpa using this
        have hvm : v ∈ vs := List.mem_of_find?_eq_some hfv
        have hvb : v.vid = bid := by simpa using hvp
        simp only [greedy_step, hb, hfv] at hlog ⊢
        have hfail : (assign_ride u v rt.2).2 = false := by
          have := List.append_cancel_left hlog
          simpa using this
        obtain ⟨hcap, hpos, hvid⟩ := assign_ride_failure_fields u v rt.2 hfail
        rw [List.map_map]
        apply List.map_congr_left
        intro w hw
        by_cases hwc : (w.vid == bid) = true
        · have hwb : w.vid = bid := by simpa using hwc
          have hwv : w = v :=
            List.inj_on_of_nodup_map hnd hw hvm (by rw [hwb, hvb])
          subst hwv
          simp only [Function.comp_apply, hwc, if_pos]
          simp [vehView, hcap, hpos, hvid]
        · simp only [Function.comp_apply, hwc]
          simp

/-- Witness for assign_ride_failure_isolated: a total-rejection world
on one concrete vehicle, a pair of fleets equal up to targets, and a
failing step whose fleet view is preserved. -/
theorem assign_ride_failure_isolated_witness :
    ((assign_ride (fun _ _ => true) ⟨0, (0, 0), 2, none⟩ ⟨(1, 1), (2, 2)⟩).1.cap =
        (⟨0, (0, 0), 2, none⟩ : Vehicle).cap ∧
      (assign_ride (fun _ _ => true) ⟨0, (0, 0), 2, none⟩ ⟨(1, 1), (2, 2)⟩).1.pos =
        (⟨0, (0, 0), 2, none⟩ : Vehicle).pos ∧
      (assign_ride (fun _ _ => true) ⟨0, (0, 0), 2, none⟩ ⟨(1, 1), (2, 2)⟩).1.vid =
        (⟨0, (0, 0), 2, none⟩ : Vehicle).vid) ∧
      ([(7, ⟨(1, 1), (2, 2)⟩)].foldl (greedy_step (fun _ _ => true))
          ([⟨0, (0, 0), 2, none⟩], [])).2 =
        ([(7, ⟨(1, 1), (2, 2)⟩)].foldl (greedy_step (fun _ _ => true))
          ([⟨0, (0, 0), 2, some ((9 : ℚ), 9)⟩], [])).2 ∧
      (greedy_step (fun _ _ => true) ([⟨0, (0, 0), 2, none⟩], [])
          (7, ⟨(1, 1), (2, 2)⟩)).1.map vehView =
        [(⟨0, (0, 0), 2, none⟩ : Vehicle)].map vehView :=
  ⟨assign_ride_failure_isolated.1 (fun _ _ => true) ⟨0, (0, 0), 2, none⟩
      ⟨(1, 1), (2, 2)⟩ rfl,
    (assign_ride_failure_isolated.2.1 (fun _ _ => true) [(7, ⟨(1, 1), (2, 2)⟩)]
      [⟨0, (0, 0), 2, none⟩] [⟨0, (0, 0), 2, some ((9 : ℚ), 9)⟩] [] rfl).1,
    assign_ride_failure_isolated.2.2 (fun _ _ => true) [⟨0, (0, 0), 2, none⟩] []
      (7, ⟨(1, 1), (2, 2)⟩) (by decide) rfl⟩

/-- Claim C6 (counterexample): when the pickup target update succeeds
and the dropoff update is rejected, the vehicle is not left as if the
assignment had not happened: its current target now points at the
pickup node. -/
theorem assign_ride_failed_dropoff_not_rolled_back :
    (assign_ride (fun _ node => node == ((2 : ℚ), (2 : ℚ)))
        ⟨0, (0, 0), 2, none⟩ ⟨(1, 1), (2, 2)⟩).2 = false ∧
      (assign_ride (fun _ node => node == ((2 : ℚ), (2 : ℚ)))
          ⟨0, (0, 0), 2, none⟩ ⟨(1, 1), (2, 2)⟩).1 ≠ ⟨0, (0, 0), 2, none⟩ ∧
      (assign_ride (fun _ node => node == ((2 : ℚ), (2 : ℚ)))
          ⟨0, (0, 0), 2, none⟩ ⟨(1, 1), (2, 2)⟩).1.target = some (1, 1) := by
  have hres : assign_ride (fun _ node => node == ((2 : ℚ), (2 : ℚ)))
      ⟨0, (0, 0), 2, none⟩ ⟨(1, 1), (2, 2)⟩ =
      (⟨0, (0, 0), 2, some (1, 1)⟩, false) := by
    norm_num [assign_ride, Prod.ext_iff]
  refine ⟨by rw [hres], ?_, by rw [hres]⟩
  rw [hres]
  intro hcon
  have htar := congrArg Vehicle.target hcon
  simp at htar

/-- Witness for greedy_considers_capacity_and_distance: the choice
characterization applied to the concrete two-vehicle example, and the
pending-request behaviour applied to a fleet with no free capacity. -/
theorem greedy_considers_capacity_and_distance_witness :
    (∃ l1 v l2,
        ([⟨1, (0, 0), 2, none⟩, ⟨2, (10, 10), 0, none⟩] : List Vehicle) =
          l1 ++ v :: l2 ∧ v.vid = 1 ∧ 0 < v.cap ∧
          (∀ w ∈ ([⟨1, (0, 0), 2, none⟩, ⟨2, (10, 10), 0, none⟩] : List Vehicle),
            0 < w.cap → calculate_distance v.pos (1, 1) ≤
              calculate_distance w.pos (1, 1)) ∧
          (∀ w ∈ l1, 0 < w.cap → calculate_distance v.pos (1, 1) <
            calculate_distance w.pos (1, 1))) ∧
      greedy_step (fun _ _ => false) ([⟨3, (5, 5), 0, none⟩], [])
        (0, ⟨(1, 1), (2, 2)⟩) = ([⟨3, (5, 5), 0, none⟩], []) :=
  ⟨greedy_considers_capacity_and_distance.1
      [⟨1, (0, 0), 2, none⟩, ⟨2, (10, 10), 0, none⟩] ⟨(1, 1), (9, 9)⟩ 1 rfl,
    greedy_considers_capacity_and_distance.2.2.1 (fun _ _ => false)
      ([⟨3, (5, 5), 0, none⟩], []) (0, ⟨(1, 1), (2, 2)⟩) rfl⟩
